import Mathlib

/-!
Dendrite: state-entry algebra and history-visibility resolver

A shallow embedding of

* the two-pointer difference of two state-entry lists and the duplicate
  state-key detector exercised by `roomserver/state/state_test.go`;
* `allowedToSeeEvent` and `RoomVisibilities` of
  `syncapi/internal/history_visibility.go`.

Go's `int64` identifiers and `int` positions are embedded as `Int`; no
arithmetic is performed on them, only comparisons, so no wrap-around arises.
-/

namespace Dendrite

/-! ## Data model (`roomserver/types`) -/

/-- Pair `(EventTypeNID, EventStateKeyNID)` naming one piece of room state. -/
structure StateKeyTuple where
  EventTypeNID : Int
  EventStateKeyNID : Int
deriving DecidableEq, Repr

/-- State entry: a state key tuple together with the numeric ID of the event
that sets it.  Go embeds the tuple struct; `==` on entries is field-wise. -/
structure StateEntry where
  Tuple : StateKeyTuple
  EventNID : Int
deriving DecidableEq, Repr

/-- Modelled from the spec: `StateKeyTuple.LessThan` lives in `roomserver/types`,
which is not among the sources; the spec fixes the order as
`(EventTypeNID, EventStateKeyNID)` ascending. -/
def StateKeyTuple.LessThan (a b : StateKeyTuple) : Bool :=
  if a.EventTypeNID ≠ b.EventTypeNID then
    decide (a.EventTypeNID < b.EventTypeNID)
  else
    decide (a.EventStateKeyNID < b.EventStateKeyNID)

/-- Modelled from the spec: `StateEntry.LessThan` lives in `roomserver/types`,
which is not among the sources; the spec calls it the "tuple-then-NID ordering",
i.e. `(EventTypeNID, EventStateKeyNID, EventNID)` ascending. -/
def StateEntry.LessThan (a b : StateEntry) : Bool :=
  if a.Tuple ≠ b.Tuple then
    a.Tuple.LessThan b.Tuple
  else
    decide (a.EventNID < b.EventNID)

/-! ## The two-pointer difference (`TestDifferenceBetweeenStateSnapshots`) -/

/-- The `for { switch { ... } }` loop of the test's closure.  The arguments
`old` and `new` are the unread suffixes `oldEntries[oldI:]` and
`newEntries[newI:]`; `added` and `removed` are the two accumulators.  The
result is `(added, removed)` at the `return`. -/
def diffLoop : List StateEntry → List StateEntry → List StateEntry → List StateEntry →
    List StateEntry × List StateEntry
  | [], new, added, removed => (added ++ new, removed)
  | o :: os, [], added, removed => (added, removed ++ (o :: os))
  | o :: os, n :: ns, added, removed =>
    if o = n then
      diffLoop os ns added removed
    else if o.LessThan n then
      diffLoop os (n :: ns) added (removed ++ [o])
    else
      diffLoop (o :: os) ns (added ++ [n]) removed
termination_by old new => old.length + new.length
decreasing_by
  all_goals simp_wf
  all_goals omega

/-- The difference between two state-entry lists: `(added, removed)`, both
accumulators starting out `nil`. -/
def Diff (oldEntries newEntries : List StateEntry) : List StateEntry × List StateEntry :=
  diffLoop oldEntries newEntries [] []

/-- The list `oldEntries` of `TestDifferenceBetweeenStateSnapshots`. -/
def oldEntries : List StateEntry :=
  [⟨⟨1, 1⟩, 1⟩, ⟨⟨1, 1⟩, 1⟩]

/-- The list `newEntries` of `TestDifferenceBetweeenStateSnapshots`. -/
def newEntries : List StateEntry :=
  [⟨⟨1, 1⟩, 2⟩, ⟨⟨2, 2⟩, 2⟩, ⟨⟨2, 2⟩, 2⟩]

/-- Ghost instrumentation of `diffLoop`: the same loop, recording only the
entries appended by the `LessThan` case (second component) and by the
`default` case (first component); the two tail copies made when one list is
exhausted are left out. -/
def diffGhost : List StateEntry → List StateEntry → List StateEntry → List StateEntry →
    List StateEntry × List StateEntry
  | [], _, addedDefault, removedLess => (addedDefault, removedLess)
  | _ :: _, [], addedDefault, removedLess => (addedDefault, removedLess)
  | o :: os, n :: ns, addedDefault, removedLess =>
    if o = n then
      diffGhost os ns addedDefault removedLess
    else if o.LessThan n then
      diffGhost os (n :: ns) addedDefault (removedLess ++ [o])
    else
      diffGhost (o :: os) ns (addedDefault ++ [n]) removedLess
termination_by old new => old.length + new.length
decreasing_by
  all_goals simp_wf
  all_goals omega

/-! ## The duplicate state-key detector (`TestFindDuplicateStateKeys`) -/

/-- The loop of `findDuplicateStateKeys` after its first entry: `start` is
`a[j]`, the first entry of the current group, `block` is `a[j:i]`, the group
read so far, and the first argument is `a[i:]`.  A group is appended to
`result` when it ends, provided it has more than one entry (`j+1 != i`). -/
def findDuplicateLoop : List StateEntry → StateEntry → List StateEntry → List StateEntry →
    List StateEntry
  | [], _, block, result => if block.length ≠ 1 then result ++ block else result
  | y :: rest, start, block, result =>
    if start.Tuple ≠ y.Tuple then
      findDuplicateLoop rest y [y] (if block.length ≠ 1 then result ++ block else result)
    else
      findDuplicateLoop rest start (block ++ [y]) result

/-- Modelled from the spec: the body of `findDuplicateStateKeys` is missing
from the sources; only its test, `TestFindDuplicateStateKeys`, is there.  The
spec has the entries "logically grouped by StateKeyTuple" and the result "in
original relative order"; the test's expected output holds both entries of the
group `(1, 1)`, the first one included, and is `nil` when no tuple repeats.
The model therefore walks the list group by group, a group being a maximal
run of entries whose tuple equals that of the run's first entry, and returns
every group of more than one entry whole. -/
def findDuplicateStateKeys (a : List StateEntry) : List StateEntry :=
  match a with
  | [] => []
  | x :: rest => findDuplicateLoop rest x [x] []

/-- First case of `TestFindDuplicateStateKeys`: `Input`. -/
def testInput1 : List StateEntry :=
  [⟨⟨1, 1⟩, 1⟩, ⟨⟨1, 1⟩, 2⟩, ⟨⟨2, 2⟩, 3⟩]

/-- First case of `TestFindDuplicateStateKeys`: `Want`. -/
def testWant1 : List StateEntry :=
  [⟨⟨1, 1⟩, 1⟩, ⟨⟨1, 1⟩, 2⟩]

/-- Second case of `TestFindDuplicateStateKeys`: `Input`. -/
def testInput2 : List StateEntry :=
  [⟨⟨1, 1⟩, 1⟩, ⟨⟨1, 2⟩, 2⟩]

/-- Second case of `TestFindDuplicateStateKeys`: `Want` (`nil`). -/
def testWant2 : List StateEntry := []

/-- The spec's wording of the detector, for comparison: every entry whose tuple
equals the tuple of an entry "already seen earlier in the sequence", the second
and later occurrences and not the first.  The argument `seen` holds the tuples
read so far, the latest first. -/
def laterOccurrencesFrom (seen : List StateKeyTuple) : List StateEntry → List StateEntry
  | [] => []
  | e :: es =>
    if e.Tuple ∈ seen then e :: laterOccurrencesFrom (e.Tuple :: seen) es
    else laterOccurrencesFrom (e.Tuple :: seen) es

/-- The entries whose tuple equals the tuple of some earlier entry (one of
`seen`) or of some later entry, in their original order. -/
def repeatedFrom (seen : List StateKeyTuple) : List StateEntry → List StateEntry
  | [] => []
  | e :: es =>
    if e.Tuple ∈ seen ∨ e.Tuple ∈ es.map StateEntry.Tuple then
      e :: repeatedFrom (e.Tuple :: seen) es
    else repeatedFrom (e.Tuple :: seen) es

/-- Entries with the same tuple are adjacent: a tuple that was read before
(`seen`, latest first) is the one read last. -/
def groupedFrom (seen : List StateKeyTuple) : List StateKeyTuple → Bool
  | [] => true
  | t :: ts => (decide (t ∈ seen → seen.head? = some t)) && groupedFrom (t :: seen) ts

/-- Entries with the same `StateKeyTuple` are adjacent in `a`. -/
def Grouped (a : List StateEntry) : Prop :=
  groupedFrom [] (a.map StateEntry.Tuple) = true

instance (a : List StateEntry) : Decidable (Grouped a) :=
  inferInstanceAs (Decidable (groupedFrom [] (a.map StateEntry.Tuple) = true))

/-- The entries whose tuple equals that of the entry just before (`prev`) or
just after them; used only in proofs. -/
def neighbourDup (prev : Option StateKeyTuple) : List StateEntry → List StateEntry
  | [] => []
  | e :: es =>
    if prev = some e.Tuple ∨ (es.head?).map StateEntry.Tuple = some e.Tuple then
      e :: neighbourDup (some e.Tuple) es
    else neighbourDup (some e.Tuple) es

/-! ## History visibility (`syncapi/internal/history_visibility.go`) -/

/-- The history visibility and membership state that decide one event for one
user (`EventVisibility`). -/
structure EventVisibility where
  Visibility : String
  Membership : String
  MembershipPosition : Int
  HistoryPosition : Int
deriving DecidableEq, Repr

/-- Method `allowedToSeeEvent`: four tests in the order of the source, the
first that holds returns `true`, otherwise `false`. -/
def EventVisibility.allowedToSeeEvent (v : EventVisibility) : Bool :=
  if v.Visibility = "world_readable" then
    true
  else if v.Membership = "join" then
    true
  else if v.Visibility = "shared" ∧ v.MembershipPosition > v.HistoryPosition then
    true
  else if v.Membership = "invite" ∧ v.Visibility = "invited" then
    true
  else
    false

/-- Topology token of `syncapi/types`: the fields read by the resolver. -/
structure TopologyToken where
  Depth : Int
  PDUPosition : Int
deriving DecidableEq, Repr

/-- A Go `error` value: `none` is `nil`, `some msg` an error. -/
abbrev GoError := Option String

/-- A headered event as the resolver uses it: the two accessors it calls, each
returning a Go pair `(value, err)`. -/
structure HeaderedEvent where
  HistoryVisibility : String × GoError
  Membership : String × GoError
deriving DecidableEq, Repr

/-- The two methods of `storage.Database` that the resolver calls, with Go's
result tuples: `EventPositionInTopology(eventID)` gives `(token, err)` and
`SelectTopologicalEvent(depth, eventType, roomID, stateKey)` gives
`(event, token, err)`.  The storage layer is not among the sources, so the
resolver is stated for every such pair of functions. -/
structure Database where
  EventPositionInTopology : String → TopologyToken × GoError
  SelectTopologicalEvent : Int → String → String → Option String →
    HeaderedEvent × TopologyToken × GoError

/-- Second half of `RoomVisibilities`, from the comment "finally the membership
event, if any" to the end: `hisVis` and `historyTopologyToken` are the values
the first half leaves in those variables. -/
def membershipStage (syncDB : Database) (roomID userID : String)
    (eventTopologyPos : TopologyToken) (hisVis : String)
    (historyTopologyToken : TopologyToken) : Bool :=
  match syncDB.SelectTopologicalEvent eventTopologyPos.Depth "m.room.member" roomID
      (some userID) with
  | (memberEvent, memberTopologyToken, none) =>
    match memberEvent.Membership with
    | (membership, none) =>
      (EventVisibility.mk hisVis membership memberTopologyToken.Depth
        historyTopologyToken.Depth).allowedToSeeEvent
    | (_, some _) => false
  | (_, _, some _) => false

/-- Function `RoomVisibilities`: position of the target event, then the
governing history visibility event, then the membership event. -/
def RoomVisibilities (syncDB : Database) (roomID userID eventID : String) : Bool :=
  match syncDB.EventPositionInTopology eventID with
  | (_, some _) => false
  | (eventTopologyPos, none) =>
    match syncDB.SelectTopologicalEvent eventTopologyPos.Depth "m.room.history_visibility"
        roomID none with
    | (historyEvent, historyTopologyToken, none) =>
      match historyEvent.HistoryVisibility with
      | (hisVis, none) =>
        if hisVis = "world_readable" then
          true
        else
          membershipStage syncDB roomID userID eventTopologyPos hisVis historyTopologyToken
      | (hisVis, some _) =>
        membershipStage syncDB roomID userID eventTopologyPos hisVis historyTopologyToken
    | (_, historyTopologyToken, some _) =>
      membershipStage syncDB roomID userID eventTopologyPos "shared"
        ⟨0, historyTopologyToken.PDUPosition⟩

/-- An event as the storage layer keeps it: identifier, room, type, state key,
topological position and the one content field the resolver reads (the
`history_visibility` or the `membership` value). -/
structure StoredEvent where
  EventID : String
  RoomID : String
  EventType : String
  StateKey : Option String
  Depth : Int
  Content : String
deriving DecidableEq, Repr

/-- The accessors of a stored event: each succeeds on an event of its own type
and fails on any other. -/
def StoredEvent.toHeadered (e : StoredEvent) : HeaderedEvent :=
  ⟨if e.EventType = "m.room.history_visibility" then (e.Content, none)
    else ("", some "not a m.room.history_visibility event"),
   if e.EventType = "m.room.member" then (e.Content, none)
    else ("", some "not a m.room.member event")⟩

/-- The later of a candidate and the best event found so far. -/
def laterEvent (best : Option StoredEvent) (e : StoredEvent) : Option StoredEvent :=
  match best with
  | none => some e
  | some b => if b.Depth ≤ e.Depth then some e else some b

/-- Modelled from the spec: the storage layer behind `storage.Database` is
missing from the sources.  The spec has each lookup "locate the most recent"
event of the given type (and, for membership, of the given user) "at or before
the target's position", and the position lookup resolve the target event's
topological position; a lookup that finds nothing returns an error. -/
def timelineDB (events : List StoredEvent) : Database where
  EventPositionInTopology := fun eventID =>
    match events.find? (fun e => decide (e.EventID = eventID)) with
    | some e => (⟨e.Depth, 0⟩, none)
    | none => (⟨0, 0⟩, some "sql: no rows in result set")
  SelectTopologicalEvent := fun depth eventType roomID stateKey =>
    match (events.filter (fun e => decide (e.Depth ≤ depth ∧ e.EventType = eventType ∧
        e.RoomID = roomID ∧ (stateKey = none ∨ e.StateKey = stateKey)))).foldl
        laterEvent none with
    | some e => (e.toHeadered, ⟨e.Depth, 0⟩, none)
    | none => (⟨("", none), ("", none)⟩, ⟨0, 0⟩, some "sql: no rows in result set")

/-- A room whose `m.room.history_visibility` event, value "invited", is at
position 3, whose user `@u:hs` has a membership event "invite" at position 5,
and whose event `$target` is at position `p`. -/
def invitedRoom (p : Int) : List StoredEvent :=
  [⟨"$hv", "!room", "m.room.history_visibility", some "", 3, "invited"⟩,
   ⟨"$member", "!room", "m.room.member", some "@u:hs", 5, "invite"⟩,
   ⟨"$target", "!room", "m.room.message", none, p, ""⟩]

/-- A room whose `m.room.history_visibility` event, value "shared", is at
position 2, whose user `@u:hs` has one membership event, "join" at position
10, and whose event `$target` is at position `p`. -/
def sharedRoom (p : Int) : List StoredEvent :=
  [⟨"$hv", "!room", "m.room.history_visibility", some "", 2, "shared"⟩,
   ⟨"$member", "!room", "m.room.member", some "@u:hs", 10, "join"⟩,
   ⟨"$target", "!room", "m.room.message", none, p, ""⟩]

/-- A room whose only state event is `m.room.history_visibility` with value
"world_readable" at position 1; `$target` is at position 2 and no user has a
membership event. -/
def worldReadableRoom : List StoredEvent :=
  [⟨"$hv", "!room", "m.room.history_visibility", some "", 1, "world_readable"⟩,
   ⟨"$target", "!room", "m.room.message", none, 2, ""⟩]

/-- Order "not greater than" induced by `StateEntry.LessThan`. -/
def StateEntry.le (a b : StateEntry) : Prop := b.LessThan a = false

instance : DecidableRel StateEntry.le := fun a b =>
  inferInstanceAs (Decidable (b.LessThan a = false))

/-- Sorted ascending, repeated entries permitted. -/
def SortedEntries (l : List StateEntry) : Prop := l.Pairwise StateEntry.le

instance (l : List StateEntry) : Decidable (SortedEntries l) :=
  inferInstanceAs (Decidable (l.Pairwise StateEntry.le))

/-- Sorted strictly ascending: no entry occurs twice. -/
def StrictSortedEntries (l : List StateEntry) : Prop :=
  l.Pairwise (fun a b => a.LessThan b = true)

instance (l : List StateEntry) : Decidable (StrictSortedEntries l) := by
  unfold StrictSortedEntries
  infer_instance

/-- Applying a difference to a sorted list: delete one occurrence of every
entry of `removed`, then insert every entry of `added` at its place. -/
def applyDiff (old added removed : List StateEntry) : List StateEntry :=
  added.foldr (List.orderedInsert StateEntry.le) (old.diff removed)

/-- Accumulator-free presentation of `diffLoop`, used only in proofs. -/
def diffRec : List StateEntry → List StateEntry → List StateEntry × List StateEntry
  | [], new => (new, [])
  | o :: os, [] => ([], o :: os)
  | o :: os, n :: ns =>
    if o = n then
      diffRec os ns
    else if o.LessThan n then
      ((diffRec os (n :: ns)).1, o :: (diffRec os (n :: ns)).2)
    else
      (n :: (diffRec (o :: os) ns).1, (diffRec (o :: os) ns).2)
termination_by old new => old.length + new.length
decreasing_by
  all_goals simp_wf
  all_goals omega

/-- The governing history visibility at `pos` is a successfully read
"world_readable": the history lookup returns no error and neither does
`HistoryVisibility()`.  This is the test behind the early `return true`. -/
def worldReadableAt (syncDB : Database) (roomID : String) (pos : TopologyToken) : Bool :=
  match syncDB.SelectTopologicalEvent pos.Depth "m.room.history_visibility" roomID none with
  | (historyEvent, _, none) => decide (historyEvent.HistoryVisibility = ("world_readable", none))
  | (_, _, some _) => false

/-- The membership of `userID` at `pos` cannot be obtained: the membership
lookup returns an error, or it returns an event whose `Membership()` returns an
error. -/
def membershipUnreadable (syncDB : Database) (roomID userID : String)
    (pos : TopologyToken) : Bool :=
  match syncDB.SelectTopologicalEvent pos.Depth "m.room.member" roomID (some userID) with
  | (memberEvent, _, none) => decide (memberEvent.Membership.2 ≠ none)
  | (_, _, some _) => true

/-- A database whose position lookup always answers depth 4 and whose event
lookup answers `history` for `m.room.history_visibility` and `member` for any
other type, whatever the depth, room and state key. -/
def stubDB (history member : HeaderedEvent × TopologyToken × GoError) : Database where
  EventPositionInTopology := fun _ => (⟨4, 0⟩, none)
  SelectTopologicalEvent := fun _ eventType _ _ =>
    if eventType = "m.room.history_visibility" then history else member

/-! ## Facts about the order -/

theorem StateEntry.lessThan_iff (a b : StateEntry) :
    a.LessThan b = true ↔
      a.Tuple.EventTypeNID < b.Tuple.EventTypeNID ∨
      (a.Tuple.EventTypeNID = b.Tuple.EventTypeNID ∧
        (a.Tuple.EventStateKeyNID < b.Tuple.EventStateKeyNID ∨
          (a.Tuple.EventStateKeyNID = b.Tuple.EventStateKeyNID ∧ a.EventNID < b.EventNID))) := by
  obtain ⟨⟨at1, ak1⟩, an1⟩ := a
  obtain ⟨⟨bt1, bk1⟩, bn1⟩ := b
  simp only [StateEntry.LessThan, StateKeyTuple.LessThan, ne_eq, StateKeyTuple.mk.injEq]
  by_cases h1 : at1 = bt1
  · by_cases h2 : ak1 = bk1
    · simp [h1, h2]
    · simp [h1, h2]
  · simp [h1]

theorem StateEntry.eq_iff (a b : StateEntry) :
    a = b ↔ a.Tuple.EventTypeNID = b.Tuple.EventTypeNID ∧
      a.Tuple.EventStateKeyNID = b.Tuple.EventStateKeyNID ∧ a.EventNID = b.EventNID := by
  obtain ⟨⟨at1, ak1⟩, an1⟩ := a
  obtain ⟨⟨bt1, bk1⟩, bn1⟩ := b
  simp [and_assoc]

theorem StateEntry.lessThan_irrefl (a : StateEntry) : a.LessThan a = false := by
  rw [Bool.eq_false_iff, ne_eq, StateEntry.lessThan_iff]
  omega

theorem StateEntry.lessThan_trans {a b c : StateEntry}
    (h1 : a.LessThan b = true) (h2 : b.LessThan c = true) : a.LessThan c = true := by
  rw [StateEntry.lessThan_iff] at *
  omega

theorem StateEntry.lessThan_of_not {a b : StateEntry}
    (h1 : a ≠ b) (h2 : ¬ a.LessThan b = true) : b.LessThan a = true := by
  rw [ne_eq, StateEntry.eq_iff] at h1
  rw [StateEntry.lessThan_iff] at *
  omega

theorem StateEntry.le_iff (a b : StateEntry) : StateEntry.le a b ↔ ¬ b.LessThan a = true := by
  simp [StateEntry.le]

theorem StateEntry.le_total : IsTotal StateEntry StateEntry.le where
  total a b := by
    rw [StateEntry.le_iff, StateEntry.le_iff, StateEntry.lessThan_iff, StateEntry.lessThan_iff]
    omega

theorem StateEntry.le_trans : IsTrans StateEntry StateEntry.le where
  trans a b c := by
    rw [StateEntry.le_iff, StateEntry.le_iff, StateEntry.le_iff, StateEntry.lessThan_iff,
      StateEntry.lessThan_iff, StateEntry.lessThan_iff]
    omega

theorem StateEntry.le_antisymm : IsAntisymm StateEntry StateEntry.le where
  antisymm a b := by
    rw [StateEntry.le_iff, StateEntry.le_iff, StateEntry.lessThan_iff, StateEntry.lessThan_iff,
      StateEntry.eq_iff]
    omega

/-! ## The difference loop and its accumulator-free form -/

theorem diffLoop_eq_diffRec (old new added removed : List StateEntry) :
    diffLoop old new added removed =
      (added ++ (diffRec old new).1, removed ++ (diffRec old new).2) := by
  induction old, new, added, removed using diffLoop.induct with
  | case1 new added removed => simp [diffLoop, diffRec]
  | case2 o os added removed => simp [diffLoop, diffRec]
  | case3 os n ns added removed ih =>
    rw [diffLoop, diffRec, if_pos rfl, if_pos rfl, ih]
  | case4 o os n ns added removed h hlt ih =>
    rw [diffLoop, diffRec, if_neg h, if_neg h, if_pos hlt, if_pos hlt, ih]
    simp
  | case5 o os n ns added removed h hlt ih =>
    rw [diffLoop, diffRec, if_neg h, if_neg h, if_neg hlt, if_neg hlt, ih]
    simp

theorem Diff_eq_diffRec (old new : List StateEntry) : Diff old new = diffRec old new := by
  simp [Diff, diffLoop_eq_diffRec]

theorem diffRec_sublist (old new : List StateEntry) :
    (diffRec old new).1.Sublist new ∧ (diffRec old new).2.Sublist old := by
  induction old, new using diffRec.induct with
  | case1 new => simp [diffRec]
  | case2 o os => simp [diffRec]
  | case3 os n ns ih =>
    rw [diffRec, if_pos rfl]
    exact ⟨ih.1.cons _, ih.2.cons _⟩
  | case4 o os n ns h hlt ih =>
    rw [diffRec, if_neg h, if_pos hlt]
    exact ⟨ih.1, ih.2.cons₂ _⟩
  | case5 o os n ns h hlt ih =>
    rw [diffRec, if_neg h, if_neg hlt]
    exact ⟨ih.1.cons₂ _, ih.2⟩

/-- The loop splits `old` into `removed` and a common part, and `new` into
`added` and the same common part.  No sortedness is needed for this. -/
theorem diffRec_common (old new : List StateEntry) :
    ∃ common : List StateEntry,
      List.Perm old ((diffRec old new).2 ++ common) ∧
      List.Perm new ((diffRec old new).1 ++ common) := by
  induction old, new using diffRec.induct with
  | case1 new => exact ⟨[], by simp [diffRec]⟩
  | case2 o os => exact ⟨[], by simp [diffRec]⟩
  | case3 os n ns ih =>
    obtain ⟨c, h1, h2⟩ := ih
    refine ⟨n :: c, ?_, ?_⟩
    · rw [diffRec, if_pos rfl]
      exact (h1.cons n).trans List.perm_middle.symm
    · rw [diffRec, if_pos rfl]
      exact (h2.cons n).trans List.perm_middle.symm
  | case4 o os n ns h hlt ih =>
    obtain ⟨c, h1, h2⟩ := ih
    refine ⟨c, ?_, ?_⟩
    · rw [diffRec, if_neg h, if_pos hlt]
      exact h1.cons o
    · rw [diffRec, if_neg h, if_pos hlt]
      exact h2
  | case5 o os n ns h hlt ih =>
    obtain ⟨c, h1, h2⟩ := ih
    refine ⟨c, ?_, ?_⟩
    · rw [diffRec, if_neg h, if_neg hlt]
      exact h1
    · rw [diffRec, if_neg h, if_neg hlt]
      exact h2.cons n

theorem diff_append_perm (l r c : List StateEntry) (h : List.Perm l (r ++ c)) :
    List.Perm (l.diff r) c := by
  have h1 : List.Perm (l.diff r) ((r ++ c).diff r) := h.diff_right r
  have h2 : ((r ++ c : List StateEntry) : Multiset StateEntry) - (r : Multiset StateEntry)
      = (c : Multiset StateEntry) := by
    rw [← Multiset.coe_add]
    exact add_tsub_cancel_left _ _
  rw [Multiset.coe_sub] at h2
  exact h1.trans (Quotient.exact h2)

theorem diffRec_roundtrip_perm (old new : List StateEntry) :
    List.Perm (old.diff (diffRec old new).2 ++ (diffRec old new).1) new := by
  obtain ⟨c, h1, h2⟩ := diffRec_common old new
  have h3 := diff_append_perm old _ c h1
  exact ((h3.append_right _).trans List.perm_append_comm).trans h2.symm

theorem applyDiff_perm (old added removed : List StateEntry) :
    List.Perm (applyDiff old added removed) (old.diff removed ++ added) := by
  unfold applyDiff
  induction added with
  | nil => simp
  | cons a as ih =>
    simp only [List.foldr_cons]
    exact ((List.perm_orderedInsert _ a _).trans (ih.cons a)).trans List.perm_middle.symm

theorem applyDiff_sorted (old added removed : List StateEntry) (h : SortedEntries old) :
    SortedEntries (applyDiff old added removed) := by
  unfold applyDiff
  induction added with
  | nil =>
    simp only [List.foldr_nil]
    exact List.Pairwise.sublist (List.diff_sublist old removed) h
  | cons a as ih =>
    haveI := StateEntry.le_total
    haveI := StateEntry.le_trans
    simp only [List.foldr_cons]
    exact List.Sorted.orderedInsert a _ ih

theorem diffRec_self (a : List StateEntry) : diffRec a a = ([], []) := by
  induction a with
  | nil => simp [diffRec]
  | cons x xs ih => rw [diffRec, if_pos rfl, ih]

theorem subset_append_single {g r : List StateEntry} (h : g ⊆ r) (x : StateEntry) :
    g ++ [x] ⊆ r ++ [x] := by
  intro y hy
  rcases List.mem_append.mp hy with h1 | h1
  · exact List.mem_append_left _ (h h1)
  · exact List.mem_append_right _ h1

theorem not_mem_of_lessThan_head {o n : StateEntry} {ns : List StateEntry}
    (hlt : o.LessThan n = true) (hn : StrictSortedEntries (n :: ns)) : o ∉ n :: ns := by
  intro hmem
  have hn' := List.pairwise_cons.mp hn
  have hirr := StateEntry.lessThan_irrefl o
  rcases List.mem_cons.mp hmem with heq | hm
  · rw [← heq, hirr] at hlt
    cases hlt
  · have h2 := StateEntry.lessThan_trans hlt (hn'.1 o hm)
    rw [hirr] at h2
    cases h2

theorem not_mem_tail_of_strict {n : StateEntry} {ns : List StateEntry}
    (hn : StrictSortedEntries (n :: ns)) : n ∉ ns := by
  intro hmem
  have h := (List.pairwise_cons.mp hn).1 n hmem
  rw [StateEntry.lessThan_irrefl] at h
  cases h

/-- On strictly ascending inputs nothing that the loop reports as removed
occurs in `new`, and nothing it reports as added occurs in `old`. -/
theorem diffRec_disjoint (old new : List StateEntry)
    (ho : StrictSortedEntries old) (hn : StrictSortedEntries new) :
    (∀ e ∈ (diffRec old new).2, e ∉ new) ∧ (∀ e ∈ (diffRec old new).1, e ∉ old) := by
  induction old, new using diffRec.induct with
  | case1 new => simp [diffRec]
  | case2 o os => simp [diffRec]
  | case3 os n ns ih =>
    rw [diffRec, if_pos rfl]
    obtain ⟨ih1, ih2⟩ := ih (List.pairwise_cons.mp ho).2 (List.pairwise_cons.mp hn).2
    have sub := diffRec_sublist os ns
    constructor
    · intro e he hmem
      rcases List.mem_cons.mp hmem with heq | h
      · subst heq
        exact not_mem_tail_of_strict ho (sub.2.subset he)
      · exact ih1 e he h
    · intro e he hmem
      rcases List.mem_cons.mp hmem with heq | h
      · subst heq
        exact not_mem_tail_of_strict hn (sub.1.subset he)
      · exact ih2 e he h
  | case4 o os n ns h hlt ih =>
    rw [diffRec, if_neg h, if_pos hlt]
    obtain ⟨ih1, ih2⟩ := ih (List.pairwise_cons.mp ho).2 hn
    have sub := diffRec_sublist os (n :: ns)
    constructor
    · intro e he
      rcases List.mem_cons.mp he with heq | he'
      · subst heq
        exact not_mem_of_lessThan_head hlt hn
      · exact ih1 e he'
    · intro e he hmem
      rcases List.mem_cons.mp hmem with heq | hm
      · subst heq
        exact not_mem_of_lessThan_head hlt hn (sub.1.subset he)
      · exact ih2 e he hm
  | case5 o os n ns h hlt ih =>
    rw [diffRec, if_neg h, if_neg hlt]
    have hgt : n.LessThan o = true := StateEntry.lessThan_of_not h hlt
    obtain ⟨ih1, ih2⟩ := ih ho (List.pairwise_cons.mp hn).2
    have sub := diffRec_sublist (o :: os) ns
    constructor
    · intro e he hmem
      rcases List.mem_cons.mp hmem with heq | hm
      · subst heq
        exact not_mem_of_lessThan_head hgt ho (sub.2.subset he)
      · exact ih1 e he hm
    · intro e he
      rcases List.mem_cons.mp he with heq | he'
      · subst heq
        exact not_mem_of_lessThan_head hgt ho
      · exact ih2 e he'

/-- Entries recorded by the ghost loop are among those the real loop outputs:
with `g` the ghost accumulators and `a`, `r` the real ones. -/
theorem diffGhost_subset (old new ga gr a r : List StateEntry)
    (ha : ga ⊆ a) (hr : gr ⊆ r) :
    (diffGhost old new ga gr).1 ⊆ (diffLoop old new a r).1 ∧
    (diffGhost old new ga gr).2 ⊆ (diffLoop old new a r).2 := by
  induction old, new, a, r using diffLoop.induct generalizing ga gr with
  | case1 new a r =>
    simp only [diffGhost, diffLoop]
    exact ⟨fun x hx => List.mem_append_left _ (ha hx), hr⟩
  | case2 o os a r =>
    simp only [diffGhost, diffLoop]
    exact ⟨ha, fun x hx => List.mem_append_left _ (hr hx)⟩
  | case3 os n ns a r ih =>
    rw [diffGhost, diffLoop, if_pos rfl, if_pos rfl]
    exact ih ga gr ha hr
  | case4 o os n ns a r h hlt ih =>
    rw [diffGhost, diffLoop, if_neg h, if_neg h, if_pos hlt, if_pos hlt]
    exact ih ga (gr ++ [o]) ha (subset_append_single hr o)
  | case5 o os n ns a r h hlt ih =>
    rw [diffGhost, diffLoop, if_neg h, if_neg h, if_neg hlt, if_neg hlt]
    exact ih (ga ++ [n]) gr (subset_append_single ha n) hr

/-! ## Claims about the difference -/

/-- C1 (difference round trip). For all `old` and `new` sorted ascending by
`(EventTypeNID, EventStateKeyNID, EventNID)`, the loop returns `added` and
`removed` such that `removed` is drawn from `old`, `added` is drawn from `new`,
and deleting the entries of `removed` from `old` and then inserting the entries
of `added` gives back `new`: the same entries (as a permutation) and, inserted
in order, the very same sequence. -/
theorem Diff_roundtrip (old new : List StateEntry)
    (ho : SortedEntries old) (hn : SortedEntries new) :
    (Diff old new).2.Sublist old ∧ (Diff old new).1.Sublist new ∧
      List.Perm (old.diff (Diff old new).2 ++ (Diff old new).1) new ∧
      applyDiff old (Diff old new).1 (Diff old new).2 = new := by
  rw [Diff_eq_diffRec]
  have hperm := diffRec_roundtrip_perm old new
  refine ⟨(diffRec_sublist old new).2, (diffRec_sublist old new).1, hperm, ?_⟩
  haveI := StateEntry.le_antisymm
  refine List.eq_of_perm_of_sorted ((applyDiff_perm _ _ _).trans hperm) ?_ hn
  exact applyDiff_sorted old _ _ ho

/-- Witness for C1 at the two lists of `TestDifferenceBetweeenStateSnapshots`. -/
theorem Diff_roundtrip_witness :
    SortedEntries oldEntries ∧ SortedEntries newEntries ∧
      applyDiff oldEntries (Diff oldEntries newEntries).1 (Diff oldEntries newEntries).2
        = newEntries :=
  ⟨by decide, by decide, (Diff_roundtrip oldEntries newEntries (by decide) (by decide)).2.2.2⟩

/-- C2 (difference of a list with itself). For every list `a`, sorted or not,
`Diff a a` returns both `added` and `removed` empty. -/
theorem Diff_self (a : List StateEntry) : Diff a a = ([], []) := by
  rw [Diff_eq_diffRec, diffRec_self]

/-- C3 at the failing input. With `old = [e, e]` and `new = [e, f]`, `e < f`,
both sorted ascending with a repeated entry as in the test's own lists, the
loop returns `added = [f]` and `removed = [e]`: the first `e` is skipped as
common and the second `e` is put in `removed` by the `LessThan` case although
it is an element of `new`, against the comment of that case ("it only appears
in the old list").  With the roles swapped the `default` case puts `e` in
`added` although it is an element of `old`. -/
theorem Diff_less_case_repeated_entry :
    SortedEntries [⟨⟨1, 1⟩, 1⟩, ⟨⟨1, 1⟩, 1⟩] ∧ SortedEntries [⟨⟨1, 1⟩, 1⟩, ⟨⟨1, 1⟩, 2⟩] ∧
      Diff [⟨⟨1, 1⟩, 1⟩, ⟨⟨1, 1⟩, 1⟩] [⟨⟨1, 1⟩, 1⟩, ⟨⟨1, 1⟩, 2⟩]
        = ([⟨⟨1, 1⟩, 2⟩], [⟨⟨1, 1⟩, 1⟩]) ∧
      (⟨⟨1, 1⟩, 1⟩ : StateEntry) ∈
        (diffGhost [⟨⟨1, 1⟩, 1⟩, ⟨⟨1, 1⟩, 1⟩] [⟨⟨1, 1⟩, 1⟩, ⟨⟨1, 1⟩, 2⟩] [] []).2 ∧
      (⟨⟨1, 1⟩, 1⟩ : StateEntry) ∈ [(⟨⟨1, 1⟩, 1⟩ : StateEntry), ⟨⟨1, 1⟩, 2⟩] ∧
      (⟨⟨1, 1⟩, 1⟩ : StateEntry) ∈
        (diffGhost [⟨⟨1, 1⟩, 1⟩, ⟨⟨1, 1⟩, 2⟩] [⟨⟨1, 1⟩, 1⟩, ⟨⟨1, 1⟩, 1⟩] [] []).1 ∧
      (⟨⟨1, 1⟩, 1⟩ : StateEntry) ∈ [(⟨⟨1, 1⟩, 1⟩ : StateEntry), ⟨⟨1, 1⟩, 2⟩] := by
  refine ⟨by decide, by decide, ?_, ?_, by decide, ?_, by decide⟩
  · simp [Diff, diffLoop, StateEntry.LessThan]
  · simp [diffGhost, StateEntry.LessThan]
  · simp [diffGhost, StateEntry.LessThan]

/-- Where no entry is repeated the comments of the loop hold. For all `old`
and `new` sorted strictly ascending by
`(EventTypeNID, EventStateKeyNID, EventNID)`, every entry the loop puts in
`removed` through the `LessThan` case is an element of `old` and not of `new`,
and every entry it puts in `added` through the `default` case is an element of
`new` and not of `old`; the same holds of all entries of `removed` and `added`,
the copied tails included. -/
theorem Diff_only_in_own_list (old new : List StateEntry)
    (ho : StrictSortedEntries old) (hn : StrictSortedEntries new) :
    (∀ e ∈ (diffGhost old new [] []).2, e ∈ old ∧ e ∉ new) ∧
      (∀ e ∈ (diffGhost old new [] []).1, e ∈ new ∧ e ∉ old) ∧
      (∀ e ∈ (Diff old new).2, e ∈ old ∧ e ∉ new) ∧
      (∀ e ∈ (Diff old new).1, e ∈ new ∧ e ∉ old) := by
  have hg := diffGhost_subset old new [] [] [] [] (List.Subset.refl _) (List.Subset.refl _)
  have hd := diffRec_disjoint old new ho hn
  have hs := diffRec_sublist old new
  have hall : (∀ e ∈ (Diff old new).2, e ∈ old ∧ e ∉ new) ∧
      (∀ e ∈ (Diff old new).1, e ∈ new ∧ e ∉ old) := by
    rw [Diff_eq_diffRec]
    exact ⟨fun e he => ⟨hs.2.subset he, hd.1 e he⟩, fun e he => ⟨hs.1.subset he, hd.2 e he⟩⟩
  exact ⟨fun e he => hall.1 e (hg.2 he), fun e he => hall.2 e (hg.1 he), hall.1, hall.2⟩

/-- An instance of `Diff_only_in_own_list`: `old = [(1,1,1), (1,1,3)]`,
`new = [(1,1,2), (1,1,3)]`. -/
theorem Diff_only_in_own_list_witness :
    StrictSortedEntries [⟨⟨1, 1⟩, 1⟩, ⟨⟨1, 1⟩, 3⟩] ∧
      StrictSortedEntries [⟨⟨1, 1⟩, 2⟩, ⟨⟨1, 1⟩, 3⟩] ∧
      (∀ e ∈ (Diff [⟨⟨1, 1⟩, 1⟩, ⟨⟨1, 1⟩, 3⟩] [⟨⟨1, 1⟩, 2⟩, ⟨⟨1, 1⟩, 3⟩]).2,
        e ∈ [(⟨⟨1, 1⟩, 1⟩ : StateEntry), ⟨⟨1, 1⟩, 3⟩] ∧
        e ∉ [(⟨⟨1, 1⟩, 2⟩ : StateEntry), ⟨⟨1, 1⟩, 3⟩]) :=
  ⟨by decide, by decide,
    (Diff_only_in_own_list [⟨⟨1, 1⟩, 1⟩, ⟨⟨1, 1⟩, 3⟩] [⟨⟨1, 1⟩, 2⟩, ⟨⟨1, 1⟩, 3⟩]
      (by decide) (by decide)).2.2.1⟩

/-! ## The duplicate detector -/

theorem findDuplicateLoop_eq (rest : List StateEntry) :
    ∀ (start : StateEntry) (block result : List StateEntry), block ≠ [] →
      findDuplicateLoop rest start block result =
        result ++
          (if (rest.head?).map StateEntry.Tuple = some start.Tuple ∨ 2 ≤ block.length
            then block else []) ++
          neighbourDup (some start.Tuple) rest := by
  induction rest with
  | nil =>
    intro start block result hb
    have hlen : 0 < block.length := List.length_pos.mpr hb
    by_cases h : block.length = 1
    · simp [findDuplicateLoop, neighbourDup, h]
    · have h2 : 2 ≤ block.length := by omega
      simp [findDuplicateLoop, neighbourDup, h, h2]
  | cons y rest ih =>
    intro start block result hb
    have hlen : 0 < block.length := List.length_pos.mpr hb
    by_cases hne : start.Tuple = y.Tuple
    · rw [findDuplicateLoop, if_neg (by simpa using hne), ih start (block ++ [y]) result (by simp)]
      have h2 : 2 ≤ (block ++ [y]).length := by simp; omega
      rw [if_pos (Or.inr h2)]
      simp [neighbourDup, hne]
    · have hne' : ¬ y.Tuple = start.Tuple := fun h => hne h.symm
      rw [findDuplicateLoop, if_pos (by simpa using hne), ih y [y] _ (by simp)]
      have hstart : ¬ (some start.Tuple = some y.Tuple) := by simpa using hne
      have hone : ¬ (2 ≤ ([y] : List StateEntry).length) := by simp
      by_cases hr : (rest.head?).map StateEntry.Tuple = some y.Tuple
      · have hl : (rest.head?).map StateEntry.Tuple = some y.Tuple ∨
            2 ≤ ([y] : List StateEntry).length := Or.inl hr
        have hp : some start.Tuple = some y.Tuple ∨
            (rest.head?).map StateEntry.Tuple = some y.Tuple := Or.inr hr
        have hq : ¬ ((y :: rest).head?.map StateEntry.Tuple = some start.Tuple) := by
          simpa using hne'
        rw [neighbourDup, if_pos hl, if_pos hp]
        by_cases h : block.length = 1
        · have hb1 : ¬ ((y :: rest).head?.map StateEntry.Tuple = some start.Tuple ∨
              2 ≤ block.length) := by
            rintro (h3 | h3)
            · exact hq h3
            · omega
          rw [if_neg (by simpa using h), if_neg hb1]
          simp
        · have hb1 : (y :: rest).head?.map StateEntry.Tuple = some start.Tuple ∨
              2 ≤ block.length := Or.inr (by omega)
          rw [if_pos (by simpa using h), if_pos hb1]
          simp
      · have hl : ¬ ((rest.head?).map StateEntry.Tuple = some y.Tuple ∨
            2 ≤ ([y] : List StateEntry).length) := by
          rintro (h3 | h3)
          · exact hr h3
          · exact hone h3
        have hp : ¬ (some start.Tuple = some y.Tuple ∨
            (rest.head?).map StateEntry.Tuple = some y.Tuple) := by
          rintro (h3 | h3)
          · exact hstart h3
          · exact hr h3
        have hq : ¬ ((y :: rest).head?.map StateEntry.Tuple = some start.Tuple) := by
          simpa using hne'
        rw [neighbourDup, if_neg hl, if_neg hp]
        by_cases h : block.length = 1
        · have hb1 : ¬ ((y :: rest).head?.map StateEntry.Tuple = some start.Tuple ∨
              2 ≤ block.length) := by
            rintro (h3 | h3)
            · exact hq h3
            · omega
          rw [if_neg (by simpa using h), if_neg hb1]
        · have hb1 : (y :: rest).head?.map StateEntry.Tuple = some start.Tuple ∨
              2 ≤ block.length := Or.inr (by omega)
          rw [if_pos (by simpa using h), if_pos hb1]
          simp

/-- The detector returns the entries whose tuple equals that of a neighbour. -/
theorem findDuplicateStateKeys_eq_neighbourDup (a : List StateEntry) :
    findDuplicateStateKeys a = neighbourDup none a := by
  cases a with
  | nil => rfl
  | cons x rest =>
    simp only [findDuplicateStateKeys]
    rw [findDuplicateLoop_eq rest x [x] [] (by simp)]
    by_cases h : (rest.head?).map StateEntry.Tuple = some x.Tuple
    · simp [neighbourDup, h]
    · simp [neighbourDup, h]

theorem groupedFrom_not_mem (ts : List StateKeyTuple) :
    ∀ (seen : List StateKeyTuple) (t : StateKeyTuple), groupedFrom seen ts = true →
      t ∈ seen → seen.head? ≠ some t → t ∉ ts := by
  induction ts with
  | nil => intro seen t _ _ _; simp
  | cons u us ih =>
    intro seen t hg hseen hhead
    simp only [groupedFrom, Bool.and_eq_true, decide_eq_true_eq] at hg
    have hut : u ≠ t := by
      intro h
      subst h
      exact hhead (hg.1 hseen)
    have htail := ih (u :: seen) t hg.2 (List.mem_cons_of_mem _ hseen)
      (by simpa using hut)
    intro hmem
    rcases List.mem_cons.mp hmem with h | h
    · exact hut h.symm
    · exact htail h

theorem groupedFrom_head_of_mem (ts seen : List StateKeyTuple) (t : StateKeyTuple)
    (hg : groupedFrom (t :: seen) ts = true) (hmem : t ∈ ts) : ts.head? = some t := by
  cases ts with
  | nil => simp at hmem
  | cons u us =>
    by_cases hut : u = t
    · simp [hut]
    · exfalso
      simp only [groupedFrom, Bool.and_eq_true, decide_eq_true_eq] at hg
      have h1 := groupedFrom_not_mem us (u :: t :: seen) t hg.2 (by simp) (by simpa using hut)
      rcases List.mem_cons.mp hmem with h | h
      · exact hut h.symm
      · exact h1 h

theorem neighbourDup_eq_repeatedFrom (a : List StateEntry) :
    ∀ seen : List StateKeyTuple, groupedFrom seen (a.map StateEntry.Tuple) = true →
      neighbourDup seen.head? a = repeatedFrom seen a := by
  induction a with
  | nil => intro seen _; rfl
  | cons e es ih =>
    intro seen hg
    simp only [List.map_cons, groupedFrom, Bool.and_eq_true, decide_eq_true_eq] at hg
    have htail := ih (e.Tuple :: seen) hg.2
    simp only [List.head?_cons] at htail
    have hcond : (seen.head? = some e.Tuple ∨ (es.head?).map StateEntry.Tuple = some e.Tuple) ↔
        (e.Tuple ∈ seen ∨ e.Tuple ∈ es.map StateEntry.Tuple) := by
      constructor
      · rintro (h | h)
        · exact Or.inl (List.mem_of_mem_head? h)
        · right
          rw [← List.head?_map] at h
          exact List.mem_of_mem_head? h
      · rintro (h | h)
        · exact Or.inl (hg.1 h)
        · right
          rw [← List.head?_map]
          exact groupedFrom_head_of_mem _ seen e.Tuple hg.2 h
    simp only [neighbourDup, repeatedFrom, htail, hcond]

theorem repeatedFrom_eq_filter (a : List StateEntry) :
    ∀ seen : List StateKeyTuple,
      repeatedFrom seen a =
        a.filter (fun e => decide (e.Tuple ∈ seen ∨
          2 ≤ (a.map StateEntry.Tuple).count e.Tuple)) := by
  induction a with
  | nil => intro seen; rfl
  | cons e es ih =>
    intro seen
    have htail : repeatedFrom (e.Tuple :: seen) es =
        es.filter (fun x => decide (x.Tuple ∈ seen ∨
          2 ≤ ((e :: es).map StateEntry.Tuple).count x.Tuple)) := by
      rw [ih (e.Tuple :: seen)]
      apply List.filter_congr
      intro x hx
      have hc : 1 ≤ (es.map StateEntry.Tuple).count x.Tuple :=
        List.count_pos_iff.mpr (List.mem_map_of_mem _ hx)
      by_cases hxe : x.Tuple = e.Tuple
      · have : 2 ≤ ((e :: es).map StateEntry.Tuple).count x.Tuple := by
          simp only [List.map_cons, List.count_cons, hxe, beq_self_eq_true, if_true]
          rw [hxe] at hc
          omega
        have l : x.Tuple ∈ e.Tuple :: seen ∨ 2 ≤ (es.map StateEntry.Tuple).count x.Tuple :=
          Or.inl (by simp [hxe])
        exact (decide_eq_true l).trans (decide_eq_true (Or.inr this)).symm
      · have hxe' : ¬ e.Tuple = x.Tuple := fun h => hxe h.symm
        simp [List.count_cons, hxe, hxe']
    have hhead : (e.Tuple ∈ seen ∨ e.Tuple ∈ es.map StateEntry.Tuple) ↔
        (e.Tuple ∈ seen ∨ 2 ≤ ((e :: es).map StateEntry.Tuple).count e.Tuple) := by
      have : 2 ≤ ((e :: es).map StateEntry.Tuple).count e.Tuple ↔
          e.Tuple ∈ es.map StateEntry.Tuple := by
        rw [← List.count_pos_iff]
        simp only [List.map_cons, List.count_cons, beq_self_eq_true, if_true]
        omega
      rw [this]
    simp only [repeatedFrom, List.filter_cons, htail]
    by_cases hc : e.Tuple ∈ seen ∨ e.Tuple ∈ es.map StateEntry.Tuple
    · rw [if_pos hc, if_pos (by simpa using hhead.mp hc)]
    · rw [if_neg hc, if_neg (by simpa using fun h => hc (hhead.mpr h))]

theorem laterOccurrencesFrom_sublist_repeatedFrom (a : List StateEntry) :
    ∀ seen : List StateKeyTuple,
      (laterOccurrencesFrom seen a).Sublist (repeatedFrom seen a) := by
  induction a with
  | nil => intro seen; exact List.Sublist.slnil
  | cons e es ih =>
    intro seen
    simp only [laterOccurrencesFrom, repeatedFrom]
    by_cases h1 : e.Tuple ∈ seen
    · rw [if_pos h1, if_pos (Or.inl h1)]
      exact (ih _).cons₂ e
    · rw [if_neg h1]
      by_cases h2 : e.Tuple ∈ es.map StateEntry.Tuple
      · rw [if_pos (Or.inr h2)]
        exact (ih _).cons e
      · rw [if_neg (fun h => h.elim h1 h2)]
        exact ih _

/-- The model of the detector returns what the repository's test wants. -/
theorem findDuplicateStateKeys_passes_test :
    findDuplicateStateKeys testInput1 = testWant1 ∧
      findDuplicateStateKeys testInput2 = testWant2 := by
  decide

/-! ## Claims about the duplicate detector -/

/-- C4 as stated fails on the first case of `TestFindDuplicateStateKeys`: the
wanted output holds `(1, 1, 1)`, the first occurrence of the tuple `(1, 1)`,
which has no earlier entry with that tuple; the second and later occurrences
alone would be `[(1, 1, 2)]`. -/
theorem findDuplicateStateKeys_first_occurrence_counterexample :
    findDuplicateStateKeys testInput1 = testWant1 ∧
      laterOccurrencesFrom [] testInput1 = [⟨⟨1, 1⟩, 2⟩] ∧
      findDuplicateStateKeys testInput1 ≠ laterOccurrencesFrom [] testInput1 ∧
      (⟨⟨1, 1⟩, 1⟩ : StateEntry) ∈ findDuplicateStateKeys testInput1 := by
  decide

/-- C4 (amended). For every list in which entries with the same
`StateKeyTuple` are adjacent, the detector returns, in original relative
order, exactly the entries whose tuple equals the tuple of some earlier entry
or of some later entry: the second and later occurrences of each repeated
tuple (all of them, as a sublist) and its first occurrence as well. -/
theorem findDuplicateStateKeys_grouped (a : List StateEntry) (h : Grouped a) :
    findDuplicateStateKeys a = repeatedFrom [] a ∧
      (laterOccurrencesFrom [] a).Sublist (findDuplicateStateKeys a) ∧
      (findDuplicateStateKeys a).Sublist a := by
  have h1 : findDuplicateStateKeys a = repeatedFrom [] a := by
    rw [findDuplicateStateKeys_eq_neighbourDup]
    exact neighbourDup_eq_repeatedFrom a [] h
  refine ⟨h1, ?_, ?_⟩
  · rw [h1]
    exact laterOccurrencesFrom_sublist_repeatedFrom a []
  · rw [h1, repeatedFrom_eq_filter]
    exact List.filter_sublist a

/-- Witness for the amended C4 at the first input of the test. -/
theorem findDuplicateStateKeys_grouped_witness :
    Grouped testInput1 ∧ findDuplicateStateKeys testInput1 = repeatedFrom [] testInput1 :=
  ⟨by decide, (findDuplicateStateKeys_grouped testInput1 (by decide)).1⟩

/-- C5. For every list in which entries with the same `StateKeyTuple` are
adjacent, the detector returns, in input order, exactly the entries whose tuple
occurs at least twice in the input, the first entry of each such group
included; it returns the empty list when all tuples are distinct. -/
theorem findDuplicateStateKeys_shared (a : List StateEntry) (h : Grouped a) :
    findDuplicateStateKeys a =
        a.filter (fun e => decide (2 ≤ (a.map StateEntry.Tuple).count e.Tuple)) ∧
      ((a.map StateEntry.Tuple).Nodup → findDuplicateStateKeys a = []) := by
  have h1 : findDuplicateStateKeys a =
      a.filter (fun e => decide (2 ≤ (a.map StateEntry.Tuple).count e.Tuple)) := by
    have hg : neighbourDup none a = repeatedFrom [] a := neighbourDup_eq_repeatedFrom a [] h
    rw [findDuplicateStateKeys_eq_neighbourDup, hg, repeatedFrom_eq_filter]
    simp
  refine ⟨h1, fun hnd => ?_⟩
  rw [h1, List.filter_eq_nil_iff]
  intro e _
  have hc := List.nodup_iff_count_le_one.mp hnd e.Tuple
  simp only [decide_eq_true_eq]
  omega

/-- Witness for C5 at the first input of the test, where the group `(1, 1)`
comes back whole. -/
theorem findDuplicateStateKeys_shared_witness :
    Grouped testInput1 ∧
      findDuplicateStateKeys testInput1 =
        testInput1.filter
          (fun e => decide (2 ≤ (testInput1.map StateEntry.Tuple).count e.Tuple)) :=
  ⟨by decide, (findDuplicateStateKeys_shared testInput1 (by decide)).1⟩

/-! ## Claims about history visibility -/

/-- C6. `allowedToSeeEvent` returns `true` exactly when the visibility is
"world_readable", or the membership is "join", or the visibility is "shared"
and the membership position is greater than the history position, or the
membership is "invite" and the visibility is "invited"; a membership of "join"
is allowed for every visibility and every pair of positions. -/
theorem allowedToSeeEvent_iff :
    (∀ v : EventVisibility, v.allowedToSeeEvent = true ↔
        (v.Visibility = "world_readable" ∨ v.Membership = "join" ∨
          (v.Visibility = "shared" ∧ v.MembershipPosition > v.HistoryPosition) ∨
          (v.Membership = "invite" ∧ v.Visibility = "invited"))) ∧
      (∀ (visibility : String) (membershipPosition historyPosition : Int),
        (EventVisibility.mk visibility "join" membershipPosition
          historyPosition).allowedToSeeEvent = true) := by
  constructor
  · intro v
    unfold EventVisibility.allowedToSeeEvent
    split_ifs <;> simp_all
  · intro visibility mp hp
    unfold EventVisibility.allowedToSeeEvent
    split_ifs <;> simp_all

/-- C7. When the position lookup of the target succeeds and the governing
`m.room.history_visibility` event reads "world_readable", `RoomVisibilities`
returns `true` for every user and every behaviour of the membership lookup. -/
theorem RoomVisibilities_world_readable (syncDB : Database) (roomID userID eventID : String)
    (pos : TopologyToken) (historyEvent : HeaderedEvent) (historyToken : TopologyToken)
    (hpos : syncDB.EventPositionInTopology eventID = (pos, none))
    (hhist : syncDB.SelectTopologicalEvent pos.Depth "m.room.history_visibility" roomID none
      = (historyEvent, historyToken, none))
    (hvis : historyEvent.HistoryVisibility = ("world_readable", none)) :
    RoomVisibilities syncDB roomID userID eventID = true := by
  simp [RoomVisibilities, hpos, hhist, hvis]

/-- Witness for C7: a world-readable room in which the user has no membership
event at all. -/
theorem RoomVisibilities_world_readable_witness :
    ((timelineDB worldReadableRoom).SelectTopologicalEvent 2 "m.room.member" "!room"
        (some "@u:hs")).2.2 ≠ none ∧
      RoomVisibilities (timelineDB worldReadableRoom) "!room" "@u:hs" "$target" = true :=
  ⟨by decide,
    RoomVisibilities_world_readable (timelineDB worldReadableRoom) "!room" "@u:hs" "$target"
      ⟨2, 0⟩ ⟨("world_readable", none), ("", some "not a m.room.member event")⟩ ⟨1, 0⟩
      (by decide) (by decide) (by decide)⟩

/-- C8. When the membership lookup at the target's position fails and the
governing history visibility is not a successfully read "world_readable",
`RoomVisibilities` returns `false`: for every other visibility value, for a
missing visibility event, and also when the position lookup itself fails. -/
theorem RoomVisibilities_no_membership (syncDB : Database) (roomID userID eventID : String)
    (hmem : ∀ pos : TopologyToken, syncDB.EventPositionInTopology eventID = (pos, none) →
      (syncDB.SelectTopologicalEvent pos.Depth "m.room.member" roomID (some userID)).2.2
        ≠ none)
    (hvis : ∀ (pos : TopologyToken) (historyEvent : HeaderedEvent)
      (historyToken : TopologyToken),
      syncDB.EventPositionInTopology eventID = (pos, none) →
      syncDB.SelectTopologicalEvent pos.Depth "m.room.history_visibility" roomID none
        = (historyEvent, historyToken, none) →
      historyEvent.HistoryVisibility ≠ ("world_readable", none)) :
    RoomVisibilities syncDB roomID userID eventID = false := by
  unfold RoomVisibilities
  rcases hp : syncDB.EventPositionInTopology eventID with ⟨pos, _ | err⟩
  · have hm := hmem pos hp
    have hstage : ∀ (hisVis : String) (tok : TopologyToken),
        membershipStage syncDB roomID userID pos hisVis tok = false := by
      intro hisVis tok
      unfold membershipStage
      rcases hs : syncDB.SelectTopologicalEvent pos.Depth "m.room.member" roomID
        (some userID) with ⟨ev, tk, _ | e⟩
      · rw [hs] at hm
        exact absurd rfl hm
      · rfl
    rcases hh : syncDB.SelectTopologicalEvent pos.Depth "m.room.history_visibility"
      roomID none with ⟨hev, htok, _ | e⟩
    · have hv := hvis pos hev htok hp hh
      rcases hhv : hev.HistoryVisibility with ⟨vis, _ | e⟩
      · have hne : vis ≠ "world_readable" := by
          intro h
          rw [hhv, h] at hv
          exact hv rfl
        simp [hh, hhv, hne, hstage]
      · simp [hh, hhv, hstage]
    · simp [hh, hstage]
  · rfl

/-- Witness for C8: the room with visibility "shared" set at position 2, the
target at position 5, and a user who has no membership event in the room. -/
theorem RoomVisibilities_no_membership_witness :
    RoomVisibilities (timelineDB (sharedRoom 5)) "!room" "@stranger:hs" "$target" = false :=
  RoomVisibilities_no_membership (timelineDB (sharedRoom 5)) "!room" "@stranger:hs" "$target"
    (by
      intro pos hpos
      have h5 : pos = ⟨5, 0⟩ := by
        have h : (timelineDB (sharedRoom 5)).EventPositionInTopology "$target"
            = (⟨5, 0⟩, none) := by decide
        rw [h] at hpos
        exact (Prod.mk.inj hpos).1.symm
      subst h5
      decide)
    (by
      intro pos hev htok hpos hhist
      have h5 : pos = ⟨5, 0⟩ := by
        have h : (timelineDB (sharedRoom 5)).EventPositionInTopology "$target"
            = (⟨5, 0⟩, none) := by decide
        rw [h] at hpos
        exact (Prod.mk.inj hpos).1.symm
      subst h5
      have h : (timelineDB (sharedRoom 5)).SelectTopologicalEvent 5
          "m.room.history_visibility" "!room" none
          = (⟨("shared", none), ("", some "not a m.room.member event")⟩, ⟨2, 0⟩, none) := by
        decide
      rw [h] at hhist
      have hev2 := (Prod.mk.inj hhist).1
      rw [← hev2]
      decide)

/-- C9 as stated fails: with the "invited" visibility event at position 3 and
the user's "invite" at position 5, the membership lookup for a target at
position 4 finds no membership event at or before 4, and the resolver denies. -/
theorem RoomVisibilities_invited_counterexample :
    ((timelineDB (invitedRoom 4)).SelectTopologicalEvent 4 "m.room.member" "!room"
        (some "@u:hs")).2.2 ≠ none ∧
      RoomVisibilities (timelineDB (invitedRoom 4)) "!room" "@u:hs" "$target" = false := by
  decide

/-- C9 (amended). In the room with the "invited" visibility event at position 3
and the user's "invite" at position 5, the resolver allows the user a target
event exactly when the target's position is 5 or later; a target at position
4, or anywhere before the invite, is denied. -/
theorem RoomVisibilities_invited (p : Int) :
    RoomVisibilities (timelineDB (invitedRoom p)) "!room" "@u:hs" "$target"
      = decide (5 ≤ p) := by
  have e1 : (timelineDB (invitedRoom p)).EventPositionInTopology "$target"
      = (⟨p, 0⟩, none) := by
    simp [timelineDB, invitedRoom, List.find?]
  by_cases h5 : 5 ≤ p
  · have h3 : (3 : Int) ≤ p := by omega
    simp [RoomVisibilities, membershipStage, e1]
    simp [timelineDB, invitedRoom, List.filter, h5, h3, laterEvent, StoredEvent.toHeadered,
      EventVisibility.allowedToSeeEvent]
  · by_cases h3 : 3 ≤ p
    · simp [RoomVisibilities, membershipStage, e1]
      simp [timelineDB, invitedRoom, List.filter, h5, h3, laterEvent, StoredEvent.toHeadered,
        EventVisibility.allowedToSeeEvent]
    · simp [RoomVisibilities, membershipStage, e1]
      simp [timelineDB, invitedRoom, List.filter, h5, h3, laterEvent, StoredEvent.toHeadered,
        EventVisibility.allowedToSeeEvent]

/-- C10 at the failing input: with visibility "shared" set at position 2 and
the user's only membership event a join at position 10, the membership lookup
for a target at position 5 finds nothing and the resolver denies, where the
claim and the comment on the "shared" rule ("the user joined the room at any
point after the event was sent") have it allow; the target at position 1 is
denied, as the claim says. -/
theorem RoomVisibilities_shared_joined_later :
    ((timelineDB (sharedRoom 5)).SelectTopologicalEvent 5 "m.room.member" "!room"
        (some "@u:hs")).2.2 ≠ none ∧
      RoomVisibilities (timelineDB (sharedRoom 5)) "!room" "@u:hs" "$target" = false ∧
      RoomVisibilities (timelineDB (sharedRoom 1)) "!room" "@u:hs" "$target" = false := by
  decide

/-! ## Failures of the lookups -/

/-- A failed history visibility lookup, whatever its error, does not end the
resolution: the visibility is taken as "shared" at position 0 and the
membership stage decides. -/
theorem RoomVisibilities_history_error (syncDB : Database) (roomID userID eventID : String)
    (pos : TopologyToken) (historyEvent : HeaderedEvent) (historyToken : TopologyToken)
    (err : String)
    (hpos : syncDB.EventPositionInTopology eventID = (pos, none))
    (hhist : syncDB.SelectTopologicalEvent pos.Depth "m.room.history_visibility" roomID none
      = (historyEvent, historyToken, some err)) :
    RoomVisibilities syncDB roomID userID eventID =
      membershipStage syncDB roomID userID pos "shared" ⟨0, historyToken.PDUPosition⟩ := by
  simp [RoomVisibilities, hpos, hhist]

theorem membershipStage_unreadable (syncDB : Database) (roomID userID : String)
    (pos : TopologyToken) (h : membershipUnreadable syncDB roomID userID pos = true)
    (hisVis : String) (tok : TopologyToken) :
    membershipStage syncDB roomID userID pos hisVis tok = false := by
  unfold membershipUnreadable at h
  unfold membershipStage
  rcases hs : syncDB.SelectTopologicalEvent pos.Depth "m.room.member" roomID
    (some userID) with ⟨ev, tk, _ | e⟩
  · rw [hs] at h
    simp only [decide_eq_true_eq] at h
    rcases hm : ev.Membership with ⟨m, _ | e⟩
    · rw [hm] at h
      exact absurd rfl h
    · simp [hm]
  · rfl

/-- C11 as stated fails for the history visibility lookup: when that lookup
fails with a storage error that is not "not found", the resolver takes the
visibility as "shared" at position 0 and goes on to the membership, so a user
whose membership reads "join", or reads "leave" at a position after 0, is
allowed. -/
theorem RoomVisibilities_history_error_counterexample :
    (some "driver: bad connection" : GoError) ≠ none ∧
      (some "driver: bad connection" : GoError) ≠ some "sql: no rows in result set" ∧
      RoomVisibilities
        (stubDB (⟨("", none), ("", none)⟩, ⟨0, 0⟩, some "driver: bad connection")
          (⟨("", some "not a m.room.history_visibility event"), ("join", none)⟩, ⟨2, 0⟩, none))
        "!room" "@u:hs" "$target" = true ∧
      RoomVisibilities
        (stubDB (⟨("", none), ("", none)⟩, ⟨0, 0⟩, some "driver: bad connection")
          (⟨("", some "not a m.room.history_visibility event"), ("leave", none)⟩, ⟨2, 0⟩, none))
        "!room" "@u:hs" "$target" = true := by
  decide

/-- C11 (amended). `RoomVisibilities` returns `false` whenever the position
lookup of the target fails, and whenever the governing visibility is not a
successfully read "world_readable" and the membership lookup fails or the
membership value cannot be read from the member event; this holds for every
error, "not found" included.  A failed history visibility lookup is not among
these cases. -/
theorem RoomVisibilities_fails_closed (syncDB : Database) (roomID userID eventID : String)
    (h : (syncDB.EventPositionInTopology eventID).2 ≠ none ∨
      (worldReadableAt syncDB roomID (syncDB.EventPositionInTopology eventID).1 = false ∧
        membershipUnreadable syncDB roomID userID
          (syncDB.EventPositionInTopology eventID).1 = true)) :
    RoomVisibilities syncDB roomID userID eventID = false := by
  unfold RoomVisibilities
  rcases hp : syncDB.EventPositionInTopology eventID with ⟨pos, _ | err⟩
  · rw [hp] at h
    rcases h with h | ⟨hw, hm⟩
    · exact absurd rfl h
    · simp only at hw hm
      have hstage := membershipStage_unreadable syncDB roomID userID pos hm
      unfold worldReadableAt at hw
      rcases hh : syncDB.SelectTopologicalEvent pos.Depth "m.room.history_visibility"
        roomID none with ⟨hev, htok, _ | e⟩
      · rw [hh] at hw
        simp only [decide_eq_false_iff_not] at hw
        rcases hhv : hev.HistoryVisibility with ⟨vis, _ | e⟩
        · have hne : vis ≠ "world_readable" := by
            intro hv
            rw [hhv, hv] at hw
            exact hw rfl
          simp [hh, hhv, hne, hstage]
        · simp [hh, hhv, hstage]
      · simp [hh, hstage]
  · rfl

/-- Witness for the amended C11: the visibility reads "shared" and the member
event is found, but its membership value cannot be read. -/
theorem RoomVisibilities_fails_closed_witness :
    RoomVisibilities
      (stubDB (⟨("shared", none), ("", some "not a m.room.member event")⟩, ⟨1, 0⟩, none)
        (⟨("", some "not a m.room.history_visibility event"),
          ("", some "unexpected end of JSON input")⟩, ⟨2, 0⟩, none))
      "!room" "@u:hs" "$target" = false :=
  RoomVisibilities_fails_closed _ "!room" "@u:hs" "$target" (Or.inr (by decide))

end Dendrite
